import Mathlib

/-!
Shallow embedding of the answer-reliability and caching core of the
doc-update-manager repository (scripts/response_cache.py,
scripts/distributed_cache.py, scripts/answer_guard.py,
scripts/query_runner.py), together with theorems settling the frozen
claims about it.

Conventions of the embedding:
* Python strings are Lean `String`s; byte strings are `List Nat`
  (each element < 256).
* `time.time()` is modelled by an explicit `now : Nat` argument passed to
  each operation (one clock reading per operation).
* Python `dict` / `collections.OrderedDict` are association lists that keep
  insertion order; assigning to an existing key updates the value in place
  (keeping the key's position), assigning a new key appends at the end —
  exactly the CPython 3.7+ semantics the source relies on.
* Exceptions are modelled with `Except`.
-/

set_option maxRecDepth 8000
set_option linter.unusedVariables false

namespace DocUpdateManager

/-! ### Byte and hex utilities -/

/-- Two lowercase hex digits of a byte (`Nat.digitChar` maps 0–15 to
`0`–`9`, `a`–`f`). -/
def byteToHex (b : Nat) : List Char :=
  [Nat.digitChar (b / 16 % 16), Nat.digitChar (b % 16)]

/-- Hex string of a byte list. -/
def bytesToHex (bs : List Nat) : String :=
  ⟨bs.flatMap byteToHex⟩

/-- UTF-8 encoding of a single Unicode scalar value (as `Nat` bytes);
this is what Python's `str.encode()` does per code point. -/
def utf8EncodeChar (c : Char) : List Nat :=
  let n := c.toNat
  if n < 128 then [n]
  else if n < 2048 then [192 + n / 64, 128 + n % 64]
  else if n < 65536 then [224 + n / 4096, 128 + n / 64 % 64, 128 + n % 64]
  else [240 + n / 262144, 128 + n / 4096 % 64, 128 + n / 64 % 64, 128 + n % 64]

/-- UTF-8 encoding of a string, modelling Python's `str.encode()`. -/
def utf8Encode (s : String) : List Nat :=
  s.data.flatMap utf8EncodeChar

/-! ### 32-bit word arithmetic over `Nat` -/

/-- 2^32. -/
def w32 : Nat := 4294967296

/-- Left rotation of a 32-bit word stored in a `Nat`. -/
def rotl32 (x n : Nat) : Nat :=
  ((x <<< n) % w32) ||| (x >>> (32 - n))

/-- Bitwise complement of a 32-bit word. -/
def not32 (x : Nat) : Nat := 4294967295 ^^^ x

/-- Little-endian 32-bit word from four bytes. -/
def wordLE (b0 b1 b2 b3 : Nat) : Nat :=
  b0 + 256 * b1 + 65536 * b2 + 16777216 * b3

/-- Four little-endian bytes of a 32-bit word. -/
def wordToBytesLE (x : Nat) : List Nat :=
  [x % 256, x / 256 % 256, x / 65536 % 256, x / 16777216 % 256]

/-- Four big-endian bytes of a 32-bit word. -/
def wordToBytesBE (x : Nat) : List Nat :=
  [x / 16777216 % 256, x / 65536 % 256, x / 256 % 256, x % 256]

/-- Eight little-endian bytes of a 64-bit quantity. -/
def qwordToBytesLE (x : Nat) : List Nat :=
  (List.range 8).map (fun i => x / 256 ^ i % 256)

/-- Eight big-endian bytes of a 64-bit quantity. -/
def qwordToBytesBE (x : Nat) : List Nat :=
  ((List.range 8).map (fun i => x / 256 ^ i % 256)).reverse

/-- Split a byte list into 64-byte blocks (the list's length is a multiple
of 64 after padding). -/
def blocks64 (l : List Nat) : List (List Nat) :=
  (List.range (l.length / 64)).map (fun i => ((l.drop (64 * i)).take 64))

/-! ### MD5 (RFC 1321), used by `ThreadSafeResponseCache._generate_cache_key` -/

/-- MD5 round constants `K[i] = floor(abs(sin(i+1)) * 2^32)`. -/
def md5K : List Nat :=
  [3614090360, 3905402710, 606105819, 3250441966, 4118548399, 1200080426, 2821735955, 4249261313,
   1770035416, 2336552879, 4294925233, 2304563134, 1804603682, 4254626195, 2792965006, 1236535329,
   4129170786, 3225465664, 643717713, 3921069994, 3593408605, 38016083, 3634488961, 3889429448,
   568446438, 3275163606, 4107603335, 1163531501, 2850285829, 4243563512, 1735328473, 2368359562,
   4294588738, 2272392833, 1839030562, 4259657740, 2763975236, 1272893353, 4139469664, 3200236656,
   681279174, 3936430074, 3572445317, 76029189, 3654602809, 3873151461, 530742520, 3299628645,
   4096336452, 1126891415, 2878612391, 4237533241, 1700485571, 2399980690, 4293915773, 2240044497,
   1873313359, 4264355552, 2734768916, 1309151649, 4149444226, 3174756917, 718787259, 3951481745]

/-- MD5 per-round left-rotation amounts. -/
def md5S : List Nat :=
  [7, 12, 17, 22, 7, 12, 17, 22, 7, 12, 17, 22, 7, 12, 17, 22,
   5, 9, 14, 20, 5, 9, 14, 20, 5, 9, 14, 20, 5, 9, 14, 20,
   4, 11, 16, 23, 4, 11, 16, 23, 4, 11, 16, 23, 4, 11, 16, 23,
   6, 10, 15, 21, 6, 10, 15, 21, 6, 10, 15, 21, 6, 10, 15, 21]

/-- MD5 padding: append `0x80`, zero bytes to 56 mod 64, then the bit
length as a 64-bit little-endian quantity. -/
def md5Pad (msg : List Nat) : List Nat :=
  let padLen := (55 + 64 - msg.length % 64) % 64
  msg ++ [128] ++ List.replicate padLen 0 ++ qwordToBytesLE ((msg.length * 8) % 2 ^ 64)

/-- The sixteen little-endian message words of one 64-byte block. -/
def md5Words (block : List Nat) : List Nat :=
  (List.range 16).map (fun j =>
    wordLE (block.getD (4 * j) 0) (block.getD (4 * j + 1) 0)
      (block.getD (4 * j + 2) 0) (block.getD (4 * j + 3) 0))

/-- One MD5 round `i` on the working state `(a, b, c, d)`. -/
def md5Round (m : List Nat) (st : Nat × Nat × Nat × Nat) (i : Nat) :
    Nat × Nat × Nat × Nat :=
  let (a, b, c, d) := st
  let f :=
    if i < 16 then (b &&& c) ||| (not32 b &&& d)
    else if i < 32 then (d &&& b) ||| (not32 d &&& c)
    else if i < 48 then b ^^^ c ^^^ d
    else c ^^^ (b ||| not32 d)
  let g :=
    if i < 16 then i
    else if i < 32 then (5 * i + 1) % 16
    else if i < 48 then (3 * i + 5) % 16
    else (7 * i) % 16
  let f2 := (f + a + md5K.getD i 0 + m.getD g 0) % w32
  (d, (b + rotl32 f2 (md5S.getD i 0)) % w32, b, c)

/-- MD5 compression of one 64-byte block into the running digest state. -/
def md5Block (st : Nat × Nat × Nat × Nat) (block : List Nat) :
    Nat × Nat × Nat × Nat :=
  let m := md5Words block
  let (a, b, c, d) := (List.range 64).foldl (md5Round m) st
  let (a0, b0, c0, d0) := st
  ((a0 + a) % w32, (b0 + b) % w32, (c0 + c) % w32, (d0 + d) % w32)

/-- MD5 digest (16 bytes) of a byte string. -/
def md5Bytes (msg : List Nat) : List Nat :=
  let (a, b, c, d) :=
    (blocks64 (md5Pad msg)).foldl md5Block
      (1732584193, 4023233417, 2562383102, 271733878)
  wordToBytesLE a ++ wordToBytesLE b ++ wordToBytesLE c ++ wordToBytesLE d

/-- `hashlib.md5(msg).hexdigest()`. -/
def md5Hex (msg : List Nat) : String := bytesToHex (md5Bytes msg)

/-! ### SHA-256 (FIPS 180-4), used by `DistributedCacheManager._generate_cache_key` -/

/-- SHA-256 round constants (fractional parts of cube roots of the first
64 primes). -/
def sha256K : List Nat :=
  [1116352408, 1899447441, 3049323471, 3921009573, 961987163, 1508970993, 2453635748, 2870763221,
   3624381080, 310598401, 607225278, 1426881987, 1925078388, 2162078206, 2614888103, 3248222580,
   3835390401, 4022224774, 264347078, 604807628, 770255983, 1249150122, 1555081692, 1996064986,
   2554220882, 2821834349, 2952996808, 3210313671, 3336571891, 3584528711, 113926993, 338241895,
   666307205, 773529912, 1294757372, 1396182291, 1695183700, 1986661051, 2177026350, 2456956037,
   2730485921, 2820302411, 3259730800, 3345764771, 3516065817, 3600352804, 4094571909, 275423344,
   430227734, 506948616, 659060556, 883997877, 958139571, 1322822218, 1537002063, 1747873779,
   1955562222, 2024104815, 2227730452, 2361852424, 2428436474, 2756734187, 3204031479, 3329325298]

/-- Right rotation of a 32-bit word. -/
def rotr32 (x n : Nat) : Nat := rotl32 x ((32 - n) % 32)

/-- SHA-256 padding: append `0x80`, zero bytes to 56 mod 64, then the bit
length as a 64-bit big-endian quantity. -/
def sha256Pad (msg : List Nat) : List Nat :=
  let padLen := (55 + 64 - msg.length % 64) % 64
  msg ++ [128] ++ List.replicate padLen 0 ++ qwordToBytesBE ((msg.length * 8) % 2 ^ 64)

/-- The 64-entry message schedule of one SHA-256 block. -/
def sha256Schedule (block : List Nat) : List Nat :=
  let base := (List.range 16).map (fun j =>
    wordLE (block.getD (4 * j + 3) 0) (block.getD (4 * j + 2) 0)
      (block.getD (4 * j + 1) 0) (block.getD (4 * j) 0))
  (List.range 48).foldl
    (fun w _ =>
      let i := w.length
      let x := w.getD (i - 15) 0
      let y := w.getD (i - 2) 0
      let s0 := rotr32 x 7 ^^^ rotr32 x 18 ^^^ (x >>> 3)
      let s1 := rotr32 y 17 ^^^ rotr32 y 19 ^^^ (y >>> 10)
      w ++ [(w.getD (i - 16) 0 + s0 + w.getD (i - 7) 0 + s1) % w32])
    base

/-- One SHA-256 round on the working variables. -/
def sha256Round (w : List Nat) (st : Nat × Nat × Nat × Nat × Nat × Nat × Nat × Nat)
    (i : Nat) : Nat × Nat × Nat × Nat × Nat × Nat × Nat × Nat :=
  let (a, b, c, d, e, f, g, h) := st
  let s1 := rotr32 e 6 ^^^ rotr32 e 11 ^^^ rotr32 e 25
  let ch := (e &&& f) ^^^ (not32 e &&& g)
  let t1 := (h + s1 + ch + sha256K.getD i 0 + w.getD i 0) % w32
  let s0 := rotr32 a 2 ^^^ rotr32 a 13 ^^^ rotr32 a 22
  let maj := (a &&& b) ^^^ (a &&& c) ^^^ (b &&& c)
  let t2 := (s0 + maj) % w32
  ((t1 + t2) % w32, a, b, c, (d + t1) % w32, e, f, g)

/-- SHA-256 compression of one 64-byte block. -/
def sha256Block (st : Nat × Nat × Nat × Nat × Nat × Nat × Nat × Nat)
    (block : List Nat) : Nat × Nat × Nat × Nat × Nat × Nat × Nat × Nat :=
  let w := sha256Schedule block
  let (a, b, c, d, e, f, g, h) := (List.range 64).foldl (sha256Round w) st
  let (a0, b0, c0, d0, e0, f0, g0, h0) := st
  ((a0 + a) % w32, (b0 + b) % w32, (c0 + c) % w32, (d0 + d) % w32,
   (e0 + e) % w32, (f0 + f) % w32, (g0 + g) % w32, (h0 + h) % w32)

/-- SHA-256 digest (32 bytes) of a byte string. -/
def sha256Bytes (msg : List Nat) : List Nat :=
  let (a, b, c, d, e, f, g, h) :=
    (blocks64 (sha256Pad msg)).foldl sha256Block
      (1779033703, 3144134277, 1013904242, 2773480762,
       1359893119, 2600822924, 528734635, 1541459225)
  wordToBytesBE a ++ wordToBytesBE b ++ wordToBytesBE c ++ wordToBytesBE d ++
    wordToBytesBE e ++ wordToBytesBE f ++ wordToBytesBE g ++ wordToBytesBE h

/-- `hashlib.sha256(msg).hexdigest()`. -/
def sha256Hex (msg : List Nat) : String := bytesToHex (sha256Bytes msg)

/-! ### Python string primitives used by the cache-key codecs -/

/-- Lowercasing of one character, as Python's `str.lower()` applies it per
code point; modelled on the ASCII range (the claims quantify over the same
function on both sides of every equation, and the Korean text in play has
no case). -/
def lowerChar (c : Char) : Char :=
  if 65 ≤ c.toNat ∧ c.toNat ≤ 90 then Char.ofNat (c.toNat + 32) else c

/-- `str.lower()` on a character list. -/
def pyLower (l : List Char) : List Char := l.map lowerChar

/-- Whitespace characters removed by Python's `str.strip()` (ASCII set). -/
def isPySpace (c : Char) : Bool :=
  c = ' ' || c = '\t' || c = '\n' || c = '\x0d' || c = '\x0b' || c = '\x0c'

/-- `str.strip()`: drop leading and trailing whitespace. -/
def pyStrip (l : List Char) : List Char :=
  ((l.dropWhile isPySpace).reverse.dropWhile isPySpace).reverse

/-- `question.lower().strip()` — the normalization both cache-key codecs
apply to the question (response_cache.py line 52, distributed_cache.py
line 156). -/
def pyNormalize (s : String) : String := ⟨pyStrip (pyLower s.data)⟩

/-! ### JSON serialization (`json.dumps(..., sort_keys=True, ensure_ascii=False)`) -/

/-- JSON escaping of one character with `ensure_ascii=False`: only the
quote, backslash and control characters are escaped. -/
def jsonEscapeChar (c : Char) : List Char :=
  if c = '"' then ['\\', '"']
  else if c = '\\' then ['\\', '\\']
  else if c = '\n' then ['\\', 'n']
  else if c = '\x0d' then ['\\', 'r']
  else if c = '\t' then ['\\', 't']
  else if c = '\x08' then ['\\', 'b']
  else if c = '\x0c' then ['\\', 'f']
  else if c.toNat < 32 then
    ['\\', 'u', '0', '0', Nat.digitChar (c.toNat / 16), Nat.digitChar (c.toNat % 16)]
  else [c]

/-- JSON string literal for a Python string. -/
def jsonStringLit (s : String) : String :=
  "\"" ++ String.mk (s.data.flatMap jsonEscapeChar) ++ "\""

/-- JSON value for an `Optional[str]`: `null` or a string literal. -/
def jsonOptStr : Option String → String
  | none => "null"
  | some s => jsonStringLit s

/-- The canonical serialization both codecs feed into their hash:
`json.dumps({"question": normalized, "category": c, "section": s},
sort_keys=True, ensure_ascii=False)` — keys sorted alphabetically
(category, question, section), `": "` and `", "` separators. -/
def cacheKeyString (question : String) (category section_ : Option String) : String :=
  "\x7b\"category\": " ++ jsonOptStr category ++
    ", \"question\": " ++ jsonStringLit (pyNormalize question) ++
    ", \"section\": " ++ jsonOptStr section_ ++ "\x7d"

/-- `ThreadSafeResponseCache._generate_cache_key` (response_cache.py
lines 39–63): MD5 hex digest of the canonical serialization. -/
def generateCacheKey (question : String) (category section_ : Option String) : String :=
  md5Hex (utf8Encode (cacheKeyString question category section_))

/-- `DistributedCacheManager._generate_cache_key` (distributed_cache.py
lines 151–160): `"chat_cache:"` plus the first 16 hex characters of the
SHA-256 digest of the canonical serialization. -/
def distributedCacheKey (question : String) (category section_ : Option String) : String :=
  "chat_cache:" ++ (sha256Hex (utf8Encode (cacheKeyString question category section_))).take 16

/-! ### answer_guard.py — lexical fallback detection -/

/-- Python's `needle in haystack` on strings: substring containment. -/
def pyContains (haystack needle : String) : Bool :=
  decide (needle.data <:+: haystack.data)

/-- `FALLBACK_INDICATORS` (answer_guard.py lines 9–21). -/
def FALLBACK_INDICATORS : List String :=
  ["정확한 안내가 어렵습니다",
   "자세한 정보는 없습니다",
   "명확하지 않습니다",
   "해당 정보는 제공되지 않습니다",
   "명시되어 있지 않습니다",
   "문서에서 확인할 수 없습니다",
   "문서에 해당 정보가 없습니다",
   "정책에 명시된 내용이 없습니다",
   "시간이 정확히 명시되어 있지 않습니다",
   "문서에 명확한 시간 정보가 없습니다",
   "정확한 시간을 확인할 수 없습니다"]

/-- `is_fallback_like_response` (answer_guard.py lines 23–33):
`any(indicator in answer for indicator in FALLBACK_INDICATORS)`. -/
def is_fallback_like_response (answer : String) : Bool :=
  FALLBACK_INDICATORS.any (fun indicator => pyContains answer indicator)

/-- The keyword list local to `is_fallback_response`
(answer_guard.py lines 45–52). -/
def fallback_keywords : List String :=
  ["정확한 안내가 어렵습니다",
   "문서에서 찾을 수 없습니다",
   "확인할 수 없습니다",
   "알 수 없습니다",
   "제공할 수 없습니다",
   "02-1234-5678번으로 연락 주시면"]

/-- `is_fallback_response` (answer_guard.py lines 35–54):
`any(keyword in response for keyword in fallback_keywords)`. -/
def is_fallback_response (response : String) : Bool :=
  fallback_keywords.any (fun keyword => pyContains response keyword)

/-! ### query_runner.py — the answer pipeline -/

/-- `FALLBACK_MESSAGE` (query_runner.py lines 23–26). -/
def FALLBACK_MESSAGE : String :=
  "죄송합니다. 해당 내용에 대해선 지금 바로 정확한 안내가 어려워,\n👉 02-1234-5678번으로 연락 주시면 더 빠르게 도와드릴 수 있습니다."

/-- Metadata of one retrieval result, as consumed by `run_query`. -/
structure SearchMetadata where
  text : String
  category : Option String := none
  section_ : Option String := none
deriving Repr, DecidableEq

/-- Context assembly from the search results (query_runner.py
lines 122–127): `metadata.get(..., 'N/A')` becomes `Option.getD`. -/
def buildContext (search_results : List (SearchMetadata × ℚ)) : String :=
  String.intercalate "\n\n"
    (search_results.enum.map (fun p =>
      "문서 " ++ toString (p.1 + 1) ++ ":\n" ++ p.2.1.text ++
        "\n섹션: " ++ p.2.1.section_.getD "N/A" ++
        "\n카테고리: " ++ p.2.1.category.getD "N/A"))

/-- `run_query` (query_runner.py lines 86–150). The retrieval collaborator's
return value is the `search_results` argument and the prompt+model
collaborator is the `llm` argument (applied to context and question);
both are external services in the source. Returns
`(answer, search_results, is_fallback)`. -/
def run_query (question : String) (category section_ : Option String)
    (search_results : List (SearchMetadata × ℚ))
    (llm : String → String → String) :
    String × List (SearchMetadata × ℚ) × Bool :=
  if search_results = [] then
    (FALLBACK_MESSAGE, [], true)
  else
    let context := buildContext search_results
    let response := llm context question
    if is_fallback_response response then (FALLBACK_MESSAGE, search_results, true)
    else (response, search_results, false)

/-! ### Python dict / OrderedDict semantics as insertion-ordered
association lists -/

/-- `d[k]` lookup: first (and, for a dict, only) binding of `k`. -/
def dictGet {β : Type} (d : List (String × β)) (k : String) : Option β :=
  match d with
  | [] => none
  | p :: rest => if p.1 = k then some p.2 else dictGet rest k

/-- `d[k] = v`: update in place when the key exists (keeping its
position, as CPython dicts and `OrderedDict` both do), otherwise append
at the end. -/
def dictSet {β : Type} (d : List (String × β)) (k : String) (v : β) :
    List (String × β) :=
  if (dictGet d k).isSome then
    d.map (fun p => if p.1 = k then (k, v) else p)
  else d ++ [(k, v)]

/-- `d.pop(k, None)`: remove the binding of `k`. -/
def dictPop {β : Type} (d : List (String × β)) (k : String) : List (String × β) :=
  d.filter (fun p => p.1 != k)

/-- Remove every binding whose key occurs in `ks` (the effect of the
source's `for key in ks: d.pop(key, None)` loops). -/
def removeKeys {β : Type} (d : List (String × β)) (ks : List String) :
    List (String × β) :=
  d.filter (fun p => !(ks.contains p.1))

/-- `OrderedDict.move_to_end(k)`: move the binding of `k` to the end. -/
def moveToEnd {β : Type} (d : List (String × β)) (k : String) : List (String × β) :=
  match dictGet d k with
  | none => d
  | some v => dictPop d k ++ [(k, v)]

/-! ### response_cache.py — `ThreadSafeResponseCache` -/

/-- One value of `self.cache` (the dict built in `set`, lines 196–204). -/
structure CacheEntry where
  answer : String
  is_fallback : Bool
  created_at : Nat
  question : String
  category : Option String
  section_ : Option String
  access_count : Nat
deriving Repr, DecidableEq

/-- The whole mutable state of a `ThreadSafeResponseCache` instance:
configuration, the two ordered maps, and the five statistics counters.
All operations run under one reentrant lock in the source, so the state
machine below is its sequential semantics. -/
structure CacheState where
  max_size : Int
  ttl_seconds : Int
  cache : List (String × CacheEntry)
  access_times : List (String × Nat)
  hits : Nat
  misses : Nat
  evictions : Nat
  expired_removals : Nat
  total_requests : Nat
deriving Repr, DecidableEq

/-- `ThreadSafeResponseCache.__init__` (lines 16–37). Note: the
constructor performs no validation of `max_size` or `ttl_hours`. -/
def initCache (max_size : Int) (ttl_hours : Int) : CacheState :=
  { max_size := max_size
    ttl_seconds := ttl_hours * 3600
    cache := []
    access_times := []
    hits := 0
    misses := 0
    evictions := 0
    expired_removals := 0
    total_requests := 0 }

/-- `_is_expired` (lines 65–76): `time.time() - created_at > ttl_seconds`. -/
def isExpired (st : CacheState) (entry : CacheEntry) (now : Nat) : Bool :=
  decide (st.ttl_seconds < (now : Int) - (entry.created_at : Int))

/-- `_evict_expired` (lines 78–100): collect the keys of expired entries,
pop each from both maps, add the count to `expired_removals`; returns the
count. -/
def evictExpired (st : CacheState) (now : Nat) : CacheState × Nat :=
  let expired_keys := (st.cache.filter (fun p => isExpired st p.2 now)).map Prod.fst
  ({ st with
      cache := removeKeys st.cache expired_keys
      access_times := removeKeys st.access_times expired_keys
      expired_removals := st.expired_removals + expired_keys.length },
   expired_keys.length)

/-- Stable insertion of a `(key, access-time)` pair in front of the first
pair with an access time that is not smaller. -/
def insertByTime (x : String × Nat) : List (String × Nat) → List (String × Nat)
  | [] => [x]
  | y :: ys => if y.2 < x.2 then y :: insertByTime x ys else x :: y :: ys

/-- `sorted(access_times.items(), key=lambda x: x[1])`: stable ascending
sort by access time (Python's `sorted` is stable, so ties keep dict
order, which is first-insertion order). -/
def sortByTime : List (String × Nat) → List (String × Nat)
  | [] => []
  | p :: ps => insertByTime p (sortByTime ps)

/-- `_evict_lru` (lines 102–130): take the first `count` keys of the sort,
pop those present in `cache` from both maps, add the number removed to
`evictions`; returns that number. -/
def evictLru (st : CacheState) (count : Nat) : CacheState × Nat :=
  let victims := ((sortByTime st.access_times).take count).map Prod.fst
  let removed := victims.filter (fun k => (dictGet st.cache k).isSome)
  ({ st with
      cache := removeKeys st.cache removed
      access_times := removeKeys st.access_times removed
      evictions := st.evictions + removed.length },
   removed.length)

/-- `get` (lines 132–170). `now` stands for the `time.time()` readings
made during the call. Returns the updated state and
`(answer, is_fallback)` on a live hit, `none` otherwise. -/
def cacheGet (st : CacheState) (question : String)
    (category section_ : Option String) (now : Nat) :
    CacheState × Option (String × Bool) :=
  let st := { st with total_requests := st.total_requests + 1 }
  let cache_key := generateCacheKey question category section_
  match dictGet st.cache cache_key with
  | none => ({ st with misses := st.misses + 1 }, none)
  | some entry =>
    if isExpired st entry now then
      ({ st with
          cache := dictPop st.cache cache_key
          access_times := dictPop st.access_times cache_key
          misses := st.misses + 1
          expired_removals := st.expired_removals + 1 }, none)
    else
      ({ st with
          access_times := dictSet st.access_times cache_key now
          cache := moveToEnd st.cache cache_key
          hits := st.hits + 1 }, some (entry.answer, entry.is_fallback))

/-- `set` (lines 172–211): purge expired entries, evict one LRU entry when
at capacity with a new key, then insert/overwrite under the generated key
(`access_count` is `old + 1` on overwrite, `1` on fresh insert). -/
def cacheSet (st : CacheState) (question answer : String) (is_fallback : Bool)
    (category section_ : Option String) (now : Nat) : CacheState :=
  let cache_key := generateCacheKey question category section_
  let st := (evictExpired st now).1
  let st :=
    if st.max_size ≤ (st.cache.length : Int) ∧ dictGet st.cache cache_key = none then
      (evictLru st 1).1
    else st
  let access_count :=
    match dictGet st.cache cache_key with
    | some old => old.access_count + 1
    | none => 1
  { st with
      cache := dictSet st.cache cache_key
        { answer := answer
          is_fallback := is_fallback
          created_at := now
          question := question
          category := category
          section_ := section_
          access_count := access_count }
      access_times := dictSet st.access_times cache_key now }

/-- `clear` (lines 213–219): wipe both maps; the statistics counters are
left untouched. -/
def cacheClear (st : CacheState) : CacheState :=
  { st with cache := [], access_times := [] }

/-- Round-half-to-even to an integer, Python's `round` policy. -/
def roundHalfEven (q : ℚ) : Int :=
  let f := ⌊q⌋
  if q - f < (1 : ℚ) / 2 then f
  else if (1 : ℚ) / 2 < q - f then f + 1
  else if f % 2 = 0 then f else f + 1

/-- `round(x, 2)` on the exact rational value. -/
def pyRound2 (q : ℚ) : ℚ := (roundHalfEven (q * 100) : ℚ) / 100

/-- The snapshot returned by `get_stats` (lines 221–237). -/
structure CacheStats where
  cache_size : Nat
  max_size : Int
  hit_rate : ℚ
  hits : Nat
  misses : Nat
  total_requests : Nat
  evictions : Nat
  expired_removals : Nat
  ttl_hours : ℚ
  memory_usage_estimate : Nat
deriving Repr, DecidableEq

/-- `get_stats` (lines 221–237): pure read of the state; the arithmetic
`(hits / max(total_requests, 1)) * 100` is carried out exactly over `ℚ`
(the source uses Python floats). -/
def getStats (st : CacheState) : CacheStats :=
  { cache_size := st.cache.length
    max_size := st.max_size
    hit_rate := pyRound2 ((st.hits : ℚ) / ((max st.total_requests 1 : ℕ) : ℚ) * 100)
    hits := st.hits
    misses := st.misses
    total_requests := st.total_requests
    evictions := st.evictions
    expired_removals := st.expired_removals
    ttl_hours := (st.ttl_seconds : ℚ) / 3600
    memory_usage_estimate := st.cache.length * 500 }

/-- Python `int()` truncation toward zero on an exact rational. -/
def pyInt (q : ℚ) : Int := if 0 ≤ q then ⌊q⌋ else ⌈q⌉

/-- `cleanup` (lines 268–293): purge expired entries, then, when the
cache still holds more than 80% of `max_size`, evict `int(max_size*0.2)`
LRU entries. The two float literals are modelled as the exact rationals
8/10 and 2/10. Returns the new state with
`(expired_removed, lru_removed)`. -/
def cacheCleanup (st : CacheState) (now : Nat) : CacheState × (Nat × Nat) :=
  let (st1, expired_removed) := evictExpired st now
  if (st1.max_size : ℚ) * (8 / 10) < (st1.cache.length : ℚ) then
    let (st2, lru_removed) := evictLru st1 (pyInt ((st1.max_size : ℚ) * (2 / 10))).toNat
    (st2, (expired_removed, lru_removed))
  else (st1, (expired_removed, 0))

/-! ### Operation sequences over one cache instance -/

/-- The state-mutating operations of `ThreadSafeResponseCache`
(`get_stats` and `get_cache_items` are pure reads and do not appear:
they take the lock and only read). -/
inductive CacheOp where
  | opGet (question : String) (category section_ : Option String) (now : Nat)
  | opSet (question answer : String) (is_fallback : Bool)
      (category section_ : Option String) (now : Nat)
  | opClear
  | opCleanup (now : Nat)
deriving Repr

/-- Apply one operation to the state. -/
def applyOp (st : CacheState) : CacheOp → CacheState
  | .opGet q c s now => (cacheGet st q c s now).1
  | .opSet q a fb c s now => cacheSet st q a fb c s now
  | .opClear => cacheClear st
  | .opCleanup now => (cacheCleanup st now).1

/-- Run a sequence of operations from a starting state. -/
def runOps (st : CacheState) (ops : List CacheOp) : CacheState :=
  ops.foldl applyOp st

/-! ### distributed_cache.py — `DistributedCacheManager.set` -/

/-- Model of one `DistributedCacheManager.set` call (distributed_cache.py
lines 243–287). The effectful tier calls are inputs: `l1_result` is the
outcome of `self.l1_cache.set(...)` (the L1 tier), `redis_healthy` the
value of `await self._check_redis_health()` (that helper catches its own
exceptions and returns a `bool`), and `l2_result` the outcome of the
whole guarded Redis block (`json.dumps`/compression/`setex`, including
timeout). The translation mirrors the try/except nesting of the source:
the inner `except` arms swallow an `l2_result` error, bump
`stats['errors']` and fall through to `return True`; the outer
`except Exception` swallows everything else and returns `False`.
Result: the call outcome as the caller sees it (`.error` would mean an
exception escaped `set`), paired with the increment of
`self.stats['errors']`. -/
def dcmSet (l1_result : Except String Unit) (redis_healthy : Bool)
    (l2_result : Except String Unit) : Except String Bool × Nat :=
  match l1_result with
  | .error _ => (.ok false, 0)
  | .ok _ =>
    if redis_healthy then
      match l2_result with
      | .ok _ => (.ok true, 0)
      | .error _ => (.ok true, 1)
    else (.ok true, 0)

/-- The first pair of an association list achieving the minimal second
component — the entry any stable ascending sort by that component puts
first ("oldest access time, ties broken by insertion order"). -/
def firstMin : List (String × Nat) → Option (String × Nat)
  | [] => none
  | p :: ps =>
    match firstMin ps with
    | none => some p
    | some q => if q.2 < p.2 then some q else some p

/-- The key sets of `cache` and `access_times` coincide (the source keeps
the two structures in lock step under its single lock). -/
def KeysCorr (st : CacheState) : Prop :=
  ∀ k, (dictGet st.cache k).isSome ↔ (dictGet st.access_times k).isSome

/-- The state of a fresh cache after one `set` and then two hits and one
miss (used by the C9 instance). -/
def twoHitsOneMissState : CacheState :=
  runOps (initCache 100 24)
    [CacheOp.opSet "q" "a" false none none 0,
     CacheOp.opGet "q" none none 1,
     CacheOp.opGet "q" none none 2,
     CacheOp.opGet "zzz" none none 3]

/-- The spec's LRU scenario (used by the C3 instance): `max_size = 2`,
insert `k1`, insert `k2`, access `k1`, insert `k3`. -/
def lruScenarioState : CacheState :=
  runOps (initCache 2 1)
    [CacheOp.opSet "k1" "a1" false none none 0,
     CacheOp.opSet "k2" "a2" false none none 1,
     CacheOp.opGet "k1" none none 2,
     CacheOp.opSet "k3" "a3" false none none 3]

/-!
## Theorems for the claims
-/

/-- The MD5 embedding agrees with the standard test vectors (RFC 1321). -/
theorem md5Hex_test_vectors :
    md5Hex (utf8Encode "") = "d41d8cd98f00b204e9800998ecf8427e" ∧
    md5Hex (utf8Encode "abc") = "900150983cd24fb0d6963f7d28e17f72" := by
  constructor <;> decide

/-- The SHA-256 embedding agrees with the standard test vector. -/
theorem sha256Hex_test_vector :
    sha256Hex (utf8Encode "abc") =
      "ba7816bf8f01cfea414140de5dae2223b00361a396177a9cb410ff61f20015ad" := by
  decide

/-- The embedded codecs reproduce, byte for byte, the serializations and
keys computed by the Python source (values obtained by running
`json.dumps`/`hashlib` on the same inputs): normalization, UTF-8
multibyte text and the `chat_cache:`-prefixed truncated SHA-256 key all
agree. -/
theorem cache_key_codec_matches_source :
    cacheKeyString "q" (some "A") (some "B") =
      "\x7b\"category\": \"A\", \"question\": \"q\", \"section\": \"B\"\x7d" ∧
    generateCacheKey "q" (some "A") (some "B") = "01b03eeb7d95f0a791e83dc44b9e93e0" ∧
    generateCacheKey "  Hello World  " none none =
      "054025d99b5c840a68cb8e566b1b6424" ∧
    generateCacheKey "한국어 질문" none none = "17c352cc1c2bc351ca4acaa9c6f4cd5b" ∧
    distributedCacheKey "q" (some "A") (some "B") = "chat_cache:1ded6dd2a3d93b84" ∧
    distributedCacheKey "q" (some "A") none = "chat_cache:d3bb5c20c30d8d3c" := by
  refine ⟨by decide, by decide, by decide, by decide, by decide, by decide⟩

/-- **C1.** For every question, category and section, if retrieval returns
an empty result list, `run_query` returns the canned fallback message with
`is_fallback = true` and an empty result list; the generation model is
never invoked on that path — the result does not depend on the `llm`
collaborator in any way, so the verdict is FALLBACK regardless of any
text the model might have produced. -/
theorem runQuery_empty_retrieval_is_fallback (question : String)
    (category section_ : Option String) (llm llm' : String → String → String) :
    run_query question category section_ [] llm = (FALLBACK_MESSAGE, [], true) ∧
    run_query question category section_ [] llm =
      run_query question category section_ [] llm' := by
  constructor <;> simp [run_query]

/-- **C4.** The lexical fallback-like detector returns `true` for a text
exactly when at least one phrase of its fixed indicator list occurs as a
(case-sensitive, raw) substring of the text — a single match suffices;
the text "체크인은 오후 3시입니다" contains no configured phrase of either
list (verdict NONE), while "정확한 안내가 어렵습니다" is detected. -/
theorem fallback_like_detector_substring_or :
    (∀ answer : String,
      is_fallback_like_response answer = true ↔
        ∃ indicator ∈ FALLBACK_INDICATORS, indicator.data <:+: answer.data) ∧
    is_fallback_like_response "정확한 안내가 어렵습니다" = true ∧
    is_fallback_like_response "체크인은 오후 3시입니다" = false ∧
    is_fallback_response "체크인은 오후 3시입니다" = false := by
  refine ⟨fun answer => ?_, by decide, by decide, by decide⟩
  simp [is_fallback_like_response, pyContains, List.any_eq_true]

/-- Witness for C4's characterization at a concrete input: the first
configured indicator occurs in the sample fallback-like text. -/
theorem fallback_like_detector_substring_or_witness :
    ∃ indicator ∈ FALLBACK_INDICATORS,
      indicator.data <:+: ("정확한 안내가 어렵습니다" : String).data :=
  (fallback_like_detector_substring_or.1 "정확한 안내가 어렵습니다").mp (by decide)

/-- **C5 (counterexample).** The claim that an exception raised by the L1
cache during `DistributedCacheManager.set` propagates to the caller is
false: the outer `except Exception` swallows it and the call returns
`False` (here at the concrete input where L1 raises `"boom"` while the
L2 tier is healthy and would succeed). -/
theorem dcmSet_l1_exception_is_swallowed :
    dcmSet (Except.error "boom") true (Except.ok ()) = (Except.ok false, 0) ∧
    (dcmSet (Except.error "boom") true (Except.ok ())).1 ≠ Except.error "boom" := by
  refine ⟨rfl, ?_⟩
  intro h
  simp [dcmSet] at h

/-- **C5 (amended).** Every L2/Redis exception during `set` is caught at
the boundary and the overall `set` still returns `true` whenever the L1
write succeeded; but an exception raised by the L1 cache itself does not
propagate either: the outer handler catches it and `set` returns `false`.
No exception ever escapes `set`. -/
theorem dcmSet_exception_boundary (l1_result : Except String Unit)
    (redis_healthy : Bool) (l2_result : Except String Unit) :
    (∃ b, (dcmSet l1_result redis_healthy l2_result).1 = Except.ok b) ∧
    (l1_result = Except.ok () →
      (dcmSet l1_result redis_healthy l2_result).1 = Except.ok true) ∧
    (∀ e, l1_result = Except.error e →
      (dcmSet l1_result redis_healthy l2_result).1 = Except.ok false) := by
  cases l1_result with
  | error e =>
    refine ⟨⟨false, rfl⟩, ?_, ?_⟩
    · intro h
      cases h
    · intro e' h
      rfl
  | ok u =>
    cases u
    refine ⟨?_, ?_, ?_⟩
    · cases redis_healthy <;> cases l2_result <;> exact ⟨true, rfl⟩
    · intro h2
      cases redis_healthy <;> cases l2_result <;> rfl
    · intro e h
      cases h

/-- Witness for the amended C5 statement: with L1 succeeding, a healthy
L2 tier and a failing Redis write, `set` returns `true`. -/
theorem dcmSet_exception_boundary_witness :
    (dcmSet (Except.ok ()) true (Except.error "redis down")).1 = Except.ok true :=
  (dcmSet_exception_boundary (Except.ok ()) true (Except.error "redis down")).2.1 rfl

theorem dictGet_nil {β : Type} (k : String) :
    dictGet ([] : List (String × β)) k = none := rfl

theorem dictGet_cons {β : Type} (p : String × β) (d : List (String × β)) (k : String) :
    dictGet (p :: d) k = if p.1 = k then some p.2 else dictGet d k := rfl

/-- On an empty cache, the expiry sweep of `set`/`cleanup` is a no-op. -/
theorem evictExpired_empty (st : CacheState) (now : Nat)
    (hc : st.cache = []) (ha : st.access_times = []) :
    (evictExpired st now).1 = st := by
  obtain ⟨ms, tt, cache, ats, h, m, ev, ex, tr⟩ := st
  simp only at hc ha
  subst hc ha
  simp [evictExpired, removeKeys]

/-- On an empty cache, the LRU eviction is a no-op. -/
theorem evictLru_empty (st : CacheState) (count : Nat)
    (hc : st.cache = []) (ha : st.access_times = []) :
    (evictLru st count).1 = st := by
  obtain ⟨ms, tt, cache, ats, h, m, ev, ex, tr⟩ := st
  simp only at hc ha
  subst hc ha
  simp [evictLru, sortByTime, removeKeys]

/-- `set` on an empty cache stores exactly one entry under the generated
key, whatever the configuration is. -/
theorem cacheSet_empty (st : CacheState) (question answer : String)
    (is_fallback : Bool) (category section_ : Option String) (now : Nat)
    (hc : st.cache = []) (ha : st.access_times = []) :
    cacheSet st question answer is_fallback category section_ now =
      { st with
        cache := [(generateCacheKey question category section_,
          { answer := answer, is_fallback := is_fallback, created_at := now,
            question := question, category := category, section_ := section_,
            access_count := 1 })],
        access_times := [(generateCacheKey question category section_, now)] } := by
  simp only [cacheSet]
  rw [evictExpired_empty st now hc ha]
  split_ifs with h
  · rw [evictLru_empty st 1 hc ha]
    simp [dictSet, dictGet, hc, ha]
  · simp [dictSet, dictGet, hc, ha]

/-- **C6 (counterexample).** Constructing a cache with a negative
`max_size` does not fail fast: `__init__` performs no validation, the
constructor (a straight-line field assignment, translated here as the
total function `initCache`) returns a cache object with `max_size = -5`,
and that object is usable — a `set` followed by a `get` within TTL
returns the stored answer. -/
theorem initCache_negative_size_is_accepted :
    (initCache (-5) 1).max_size = -5 ∧
    (cacheGet (cacheSet (initCache (-5) 1) "q" "a" false none none 0)
        "q" none none 1).2 = some ("a", false) := by
  constructor
  · rfl
  · decide

/-- **C6 (amended).** The constructor accepts any configuration without
validation: for every `max_size` (including negative values) and every
non-negative TTL budget, the constructed cache is a usable object — a
`set` followed by a `get` within the TTL returns the stored pair. -/
theorem initCache_no_validation (max_size ttl_hours : Int)
    (question answer : String) (is_fallback : Bool)
    (category section_ : Option String) (now now₂ : Nat)
    (httl : (now₂ : Int) - (now : Int) ≤ ttl_hours * 3600) :
    (cacheGet (cacheSet (initCache max_size ttl_hours)
        question answer is_fallback category section_ now)
      question category section_ now₂).2 = some (answer, is_fallback) := by
  rw [cacheSet_empty (initCache max_size ttl_hours) question answer is_fallback
    category section_ now rfl rfl]
  have hexp : ¬ (ttl_hours * 3600 < (now₂ : Int) - (now : Int)) := by omega
  simp [cacheGet, dictGet, isExpired, hexp, moveToEnd, dictSet, dictPop, initCache]

/-- Witness for the amended C6 statement at the concrete offending
configuration `max_size = -5`. -/
theorem initCache_no_validation_witness :
    (cacheGet (cacheSet (initCache (-5) 1) "q" "a" false none none 0)
      "q" none none 1).2 = some ("a", false) :=
  initCache_no_validation (-5) 1 "q" "a" false none none 0 1 (by decide)

/-- **C8.** `clear()` removes every entry (`cache_size` becomes 0) but
leaves `hits`, `misses`, `total_requests`, `evictions` and
`expired_removals` — and hence the reported hit rate — exactly as they
were before the call. -/
theorem clear_wipes_contents_not_stats (st : CacheState) :
    (getStats (cacheClear st)).cache_size = 0 ∧
    (getStats (cacheClear st)).hits = (getStats st).hits ∧
    (getStats (cacheClear st)).misses = (getStats st).misses ∧
    (getStats (cacheClear st)).total_requests = (getStats st).total_requests ∧
    (getStats (cacheClear st)).evictions = (getStats st).evictions ∧
    (getStats (cacheClear st)).expired_removals = (getStats st).expired_removals ∧
    (getStats (cacheClear st)).hit_rate = (getStats st).hit_rate := by
  simp [getStats, cacheClear]

/-- **C9.** `get_stats` reports
`hit_rate = round((hits / max(total_requests, 1)) * 100, 2)`; after
exactly 2 hits and 1 miss the reported hit rate is 66.67, and with zero
total requests it is 0. -/
theorem hit_rate_formula_and_instances :
    (∀ st : CacheState,
      (getStats st).hit_rate =
        pyRound2 ((st.hits : ℚ) / ((max st.total_requests 1 : ℕ) : ℚ) * 100)) ∧
    twoHitsOneMissState.hits = 2 ∧
    twoHitsOneMissState.misses = 1 ∧
    twoHitsOneMissState.total_requests = 3 ∧
    (getStats twoHitsOneMissState).hit_rate = 6667 / 100 ∧
    (initCache 100 24).total_requests = 0 ∧
    (getStats (initCache 100 24)).hit_rate = 0 := by
  have h2 : twoHitsOneMissState.hits = 2 := by decide
  have h3 : twoHitsOneMissState.total_requests = 3 := by decide
  refine ⟨fun st => rfl, h2, by decide, h3, ?_, rfl, ?_⟩
  · have : (getStats twoHitsOneMissState).hit_rate =
        pyRound2 ((2 : ℚ) / ((3 : ℕ) : ℚ) * 100) := by
      simp only [getStats, h2, h3]
      norm_num
    rw [this]
    norm_num [pyRound2, roundHalfEven]
  · simp only [getStats, initCache]
    norm_num [pyRound2, roundHalfEven]

theorem dictGet_dictPop_self {β : Type} (d : List (String × β)) (k : String) :
    dictGet (dictPop d k) k = none := by
  induction d with
  | nil => rfl
  | cons p rest ih =>
    by_cases h : p.1 = k
    · simp [dictPop, List.filter_cons, h] at ih ⊢
      exact ih
    · simp [dictPop, List.filter_cons, h, dictGet_cons] at ih ⊢
      exact ih

theorem dictGet_dictPop_ne {β : Type} (d : List (String × β)) (k k' : String)
    (h : k' ≠ k) : dictGet (dictPop d k) k' = dictGet d k' := by
  induction d with
  | nil => rfl
  | cons p rest ih =>
    by_cases hp : p.1 = k
    · subst hp
      simp [dictPop, List.filter_cons, dictGet_cons, Ne.symm h] at ih ⊢
      exact ih
    · simp [dictPop, List.filter_cons, hp, dictGet_cons] at ih ⊢
      by_cases hp' : p.1 = k'
      · simp [hp']
      · simp [hp', ih]

/-- **C2.** An entry whose age exceeds `ttl_seconds` is never returned by
`get`: when `get` finds such an entry it removes it, increments the miss
counter by exactly 1 and the expiration counter by exactly 1, leaves the
hit counter alone, counts the request, and returns absent; a subsequent
`get` on the same key (at any time) is a plain miss that no longer touches
the expiration counter. -/
theorem cacheGet_expired_entry (st : CacheState) (question : String)
    (category section_ : Option String) (now : Nat) (entry : CacheEntry)
    (hfound : dictGet st.cache (generateCacheKey question category section_) =
      some entry)
    (hexp : st.ttl_seconds < (now : Int) - (entry.created_at : Int)) :
    (cacheGet st question category section_ now).2 = none ∧
    (cacheGet st question category section_ now).1.misses = st.misses + 1 ∧
    (cacheGet st question category section_ now).1.expired_removals =
      st.expired_removals + 1 ∧
    (cacheGet st question category section_ now).1.hits = st.hits ∧
    (cacheGet st question category section_ now).1.total_requests =
      st.total_requests + 1 ∧
    dictGet (cacheGet st question category section_ now).1.cache
      (generateCacheKey question category section_) = none ∧
    (∀ now₂ : Nat,
      (cacheGet (cacheGet st question category section_ now).1
          question category section_ now₂).2 = none ∧
      (cacheGet (cacheGet st question category section_ now).1
          question category section_ now₂).1.misses = st.misses + 2 ∧
      (cacheGet (cacheGet st question category section_ now).1
          question category section_ now₂).1.expired_removals =
        st.expired_removals + 1) := by
  have hstep :
      cacheGet st question category section_ now =
        ({ st with
            cache := dictPop st.cache (generateCacheKey question category section_)
            access_times :=
              dictPop st.access_times (generateCacheKey question category section_)
            misses := st.misses + 1
            expired_removals := st.expired_removals + 1
            total_requests := st.total_requests + 1 }, none) := by
    simp only [cacheGet, hfound]
    have hb : isExpired { st with total_requests := st.total_requests + 1 }
        entry now = true := by
      simp only [isExpired, decide_eq_true_eq]
      exact hexp
    simp [hb]
  rw [hstep]
  refine ⟨rfl, rfl, rfl, rfl, rfl, dictGet_dictPop_self _ _, fun now₂ => ?_⟩
  simp only [cacheGet, dictGet_dictPop_self]
  simp

/-- Witness for C2 at a concrete run: a 1-hour-TTL cache filled at time 0
and read at time 4000 (age 4000 > 3600) misses, expires the entry, and
misses again plainly at time 4001. -/
theorem cacheGet_expired_entry_witness :
    (cacheGet (cacheSet (initCache 100 1) "q" "a" false none none 0)
        "q" none none 4000).2 = none ∧
    (cacheGet (cacheSet (initCache 100 1) "q" "a" false none none 0)
        "q" none none 4000).1.misses =
      (cacheSet (initCache 100 1) "q" "a" false none none 0).misses + 1 ∧
    (cacheGet (cacheSet (initCache 100 1) "q" "a" false none none 0)
        "q" none none 4000).1.expired_removals =
      (cacheSet (initCache 100 1) "q" "a" false none none 0).expired_removals + 1 ∧
    (cacheGet (cacheGet (cacheSet (initCache 100 1) "q" "a" false none none 0)
        "q" none none 4000).1 "q" none none 4001).2 = none := by
  have h := cacheGet_expired_entry
    (cacheSet (initCache 100 1) "q" "a" false none none 0) "q" none none 4000
    { answer := "a", is_fallback := false, created_at := 0, question := "q",
      category := none, section_ := none, access_count := 1 }
    (by decide) (by decide)
  exact ⟨h.1, h.2.1, h.2.2.1, (h.2.2.2.2.2.2 4001).1⟩

theorem evictExpired_counters (st : CacheState) (now : Nat) :
    (evictExpired st now).1.hits = st.hits ∧
    (evictExpired st now).1.misses = st.misses ∧
    (evictExpired st now).1.total_requests = st.total_requests :=
  ⟨rfl, rfl, rfl⟩

theorem evictLru_counters (st : CacheState) (count : Nat) :
    (evictLru st count).1.hits = st.hits ∧
    (evictLru st count).1.misses = st.misses ∧
    (evictLru st count).1.total_requests = st.total_requests :=
  ⟨rfl, rfl, rfl⟩

theorem cacheSet_counters (st : CacheState) (question answer : String)
    (is_fallback : Bool) (category section_ : Option String) (now : Nat) :
    (cacheSet st question answer is_fallback category section_ now).hits = st.hits ∧
    (cacheSet st question answer is_fallback category section_ now).misses = st.misses ∧
    (cacheSet st question answer is_fallback category section_ now).total_requests =
      st.total_requests := by
  simp only [cacheSet]
  split_ifs with h <;> exact ⟨rfl, rfl, rfl⟩

theorem cacheCleanup_counters (st : CacheState) (now : Nat) :
    (cacheCleanup st now).1.hits = st.hits ∧
    (cacheCleanup st now).1.misses = st.misses ∧
    (cacheCleanup st now).1.total_requests = st.total_requests := by
  simp only [cacheCleanup]
  split_ifs with h <;> exact ⟨rfl, rfl, rfl⟩

theorem cacheGet_counters (st : CacheState) (question : String)
    (category section_ : Option String) (now : Nat) :
    (cacheGet st question category section_ now).1.total_requests =
      st.total_requests + 1 ∧
    (((cacheGet st question category section_ now).1.hits = st.hits + 1 ∧
      (cacheGet st question category section_ now).1.misses = st.misses) ∨
     ((cacheGet st question category section_ now).1.misses = st.misses + 1 ∧
      (cacheGet st question category section_ now).1.hits = st.hits)) := by
  simp only [cacheGet]
  cases hd : dictGet st.cache (generateCacheKey question category section_) with
  | none => exact ⟨rfl, Or.inr ⟨rfl, rfl⟩⟩
  | some entry =>
    by_cases hb :
        isExpired { st with total_requests := st.total_requests + 1 } entry now
    · simp [hb]
    · simp [hb]

/-- The counter invariant is preserved along any operation sequence. -/
theorem runOps_counter_inv (st : CacheState)
    (h : st.hits + st.misses = st.total_requests) (ops : List CacheOp) :
    (runOps st ops).hits + (runOps st ops).misses =
      (runOps st ops).total_requests := by
  induction ops generalizing st with
  | nil => exact h
  | cons op rest ih =>
    show (runOps (applyOp st op) rest).hits + _ = _
    apply ih
    cases op with
    | opGet q c s now =>
      have hc := cacheGet_counters st q c s now
      rcases hc.2 with ⟨h1, h2⟩ | ⟨h1, h2⟩ <;>
        simp only [applyOp, hc.1, h1, h2] <;> omega
    | opSet q a fb c s now =>
      have hc := cacheSet_counters st q a fb c s now
      simp only [applyOp, hc.1, hc.2.1, hc.2.2]
      exact h
    | opClear => exact h
    | opCleanup now =>
      have hc := cacheCleanup_counters st now
      simp only [applyOp, hc.1, hc.2.1, hc.2.2]
      exact h

/-- **C10.** In `ThreadSafeResponseCache`, `hits + misses = total_requests`
holds after any sequence of operations on a fresh cache: every `get`
increments `total_requests` by exactly 1 and exactly one of `hits` or
`misses` by exactly 1 (an expired entry counting as a miss, see the C2
theorem), while `set`, `clear` and `cleanup` leave all three counters
unchanged (`get_stats` is embedded as the pure read `getStats` and by
construction has no state effect). -/
theorem counters_sum_invariant :
    (∀ (max_size ttl_hours : Int) (ops : List CacheOp),
      (runOps (initCache max_size ttl_hours) ops).hits +
        (runOps (initCache max_size ttl_hours) ops).misses =
        (runOps (initCache max_size ttl_hours) ops).total_requests) ∧
    (∀ (st : CacheState) (q : String) (c s : Option String) (now : Nat),
      (cacheGet st q c s now).1.total_requests = st.total_requests + 1 ∧
      (((cacheGet st q c s now).1.hits = st.hits + 1 ∧
        (cacheGet st q c s now).1.misses = st.misses) ∨
       ((cacheGet st q c s now).1.misses = st.misses + 1 ∧
        (cacheGet st q c s now).1.hits = st.hits))) ∧
    (∀ (st : CacheState) (q a : String) (fb : Bool) (c s : Option String) (now : Nat),
      (cacheSet st q a fb c s now).hits = st.hits ∧
      (cacheSet st q a fb c s now).misses = st.misses ∧
      (cacheSet st q a fb c s now).total_requests = st.total_requests) ∧
    (∀ st : CacheState,
      (cacheClear st).hits = st.hits ∧ (cacheClear st).misses = st.misses ∧
      (cacheClear st).total_requests = st.total_requests) ∧
    (∀ (st : CacheState) (now : Nat),
      (cacheCleanup st now).1.hits = st.hits ∧
      (cacheCleanup st now).1.misses = st.misses ∧
      (cacheCleanup st now).1.total_requests = st.total_requests) :=
  ⟨fun ms tt ops => runOps_counter_inv (initCache ms tt) rfl ops,
   fun st q c s now => cacheGet_counters st q c s now,
   fun st q a fb c s now => cacheSet_counters st q a fb c s now,
   fun st => ⟨rfl, rfl, rfl⟩,
   fun st now => cacheCleanup_counters st now⟩

theorem charToNat_ofNat {n : Nat} (h : Nat.isValidChar n) :
    (Char.ofNat n).toNat = n := by
  unfold Char.ofNat
  rw [dif_pos h]
  rfl

/-- Per-character lowercasing is idempotent. -/
theorem lowerChar_lowerChar (c : Char) : lowerChar (lowerChar c) = lowerChar c := by
  unfold lowerChar
  by_cases h : 65 ≤ c.toNat ∧ c.toNat ≤ 90
  · have hv : Nat.isValidChar (c.toNat + 32) := Or.inl (by omega)
    have ht : (Char.ofNat (c.toNat + 32)).toNat = c.toNat + 32 := charToNat_ofNat hv
    have hcond : ¬ (65 ≤ (Char.ofNat (c.toNat + 32)).toNat ∧
        (Char.ofNat (c.toNat + 32)).toNat ≤ 90) := by
      rw [ht]
      omega
    rw [if_pos h, if_neg hcond]
  · rw [if_neg h, if_neg h]

theorem lowerChar_of_mem_pyLower {c : Char} {l : List Char} (h : c ∈ pyLower l) :
    lowerChar c = c := by
  obtain ⟨a, _, rfl⟩ := List.mem_map.mp h
  exact lowerChar_lowerChar a

theorem dropWhile_dropWhile {α : Type} (p : α → Bool) (l : List α) :
    (l.dropWhile p).dropWhile p = l.dropWhile p := by
  induction l with
  | nil => rfl
  | cons x xs ih =>
    by_cases h : p x
    · simp [List.dropWhile_cons, h, ih]
    · simp [List.dropWhile_cons, h]

theorem dropWhile_head_false {α : Type} (p : α → Bool) (l : List α) (h : α)
    (t : List α) (he : l.dropWhile p = h :: t) : p h = false := by
  induction l with
  | nil => cases he
  | cons x xs ih =>
    by_cases hp : p x
    · rw [List.dropWhile_cons, if_pos hp] at he
      exact ih he
    · rw [List.dropWhile_cons, if_neg hp] at he
      cases he
      simpa using hp

theorem mem_pyStrip {c : Char} {l : List Char} (h : c ∈ pyStrip l) : c ∈ l := by
  unfold pyStrip at h
  rw [List.mem_reverse] at h
  have h1 : c ∈ (l.dropWhile isPySpace).reverse :=
    List.Sublist.mem h (List.dropWhile_sublist isPySpace)
  rw [List.mem_reverse] at h1
  exact List.Sublist.mem h1 (List.dropWhile_sublist isPySpace)

/-- `strip` is idempotent. -/
theorem pyStrip_pyStrip (l : List Char) : pyStrip (pyStrip l) = pyStrip l := by
  have hfront : (pyStrip l).dropWhile isPySpace = pyStrip l := by
    cases hB : pyStrip l with
    | nil => rfl
    | cons h t =>
      have hpre : pyStrip l <+: l.dropWhile isPySpace := by
        unfold pyStrip
        have hs := List.dropWhile_suffix (l := (l.dropWhile isPySpace).reverse) isPySpace
        have h2 := List.reverse_prefix.mpr hs
        rwa [List.reverse_reverse] at h2
      obtain ⟨s, hs⟩ := hpre
      rw [hB] at hs
      have hh : isPySpace h = false :=
        dropWhile_head_false isPySpace l h (t ++ s) (by rw [← hs]; rfl)
      rw [List.dropWhile_cons, if_neg (by simp [hh])]
  have hX : (pyStrip l).reverse = (l.dropWhile isPySpace).reverse.dropWhile isPySpace := by
    unfold pyStrip
    rw [List.reverse_reverse]
  show (((pyStrip l).dropWhile isPySpace).reverse.dropWhile isPySpace).reverse = pyStrip l
  rw [hfront, hX, dropWhile_dropWhile]
  rfl

/-- `x.lower().strip()` is a fixed point of itself: normalizing twice is
the same as normalizing once. -/
theorem pyNormalize_pyNormalize (s : String) :
    pyNormalize (pyNormalize s) = pyNormalize s := by
  have hfix : pyLower (pyStrip (pyLower s.data)) = pyStrip (pyLower s.data) := by
    have h1 := List.map_congr_left
      (fun a ha => lowerChar_of_mem_pyLower (mem_pyStrip (l := pyLower s.data) ha))
    simpa [pyLower] using h1
  show (⟨pyStrip (pyLower (pyStrip (pyLower s.data)))⟩ : String) = pyNormalize s
  rw [hfix, pyStrip_pyStrip]
  rfl

/-- **C7.** Both cache-key codecs are pure functions of
`(question.lower().strip(), category, section)`: for every question and
filters, `encode(q, c, s) = encode(q.lower().strip(), c, s)`; and the
absent (`null`) section dimension is never collapsed into the concrete
value `"B"`: for every question the canonical serializations fed to the
hashes differ (`"section": "B"` vs `"section": null`), and at concrete
inputs the hashed keys of both codecs differ as well (injectivity of the
MD5/SHA-256 digests themselves is, of course, not a theorem — the
universally-quantified distinctness holds at the hash-input level). -/
theorem cache_key_codec_properties :
    (∀ (q : String) (c s : Option String),
      generateCacheKey q c s = generateCacheKey (pyNormalize q) c s) ∧
    (∀ (q : String) (c s : Option String),
      distributedCacheKey q c s = distributedCacheKey (pyNormalize q) c s) ∧
    (∀ q : String,
      cacheKeyString q (some "A") (some "B") ≠ cacheKeyString q (some "A") none) ∧
    generateCacheKey "q" (some "A") (some "B") ≠
      generateCacheKey "q" (some "A") none ∧
    distributedCacheKey "q" (some "A") (some "B") ≠
      distributedCacheKey "q" (some "A") none := by
  have hser : ∀ (q : String) (c s : Option String),
      cacheKeyString (pyNormalize q) c s = cacheKeyString q c s := by
    intro q c s
    unfold cacheKeyString
    rw [pyNormalize_pyNormalize]
  refine ⟨?_, ?_, ?_, by decide, by decide⟩
  · intro q c s
    unfold generateCacheKey
    rw [hser]
  · intro q c s
    unfold distributedCacheKey
    rw [hser]
  · intro q h
    have hlen := congrArg String.length h
    have h3 : (jsonOptStr (some "B")).length = 3 := by decide
    have h4 : (jsonOptStr (none : Option String)).length = 4 := by decide
    simp only [cacheKeyString, String.length_append, h3, h4] at hlen
    omega

/-- Witness for the C7 normalization property at a concrete input: an
upper-case, whitespace-padded question hashes to the same key as its
normalized form. -/
theorem cache_key_codec_properties_witness :
    generateCacheKey "  Hello World  " none none =
      generateCacheKey (pyNormalize "  Hello World  ") none none :=
  cache_key_codec_properties.1 "  Hello World  " none none

/-! ### Dictionary-level lemmas for the LRU/size invariants (C3) -/

theorem isSome_dictGet_iff_mem {β : Type} (d : List (String × β)) (k : String) :
    (dictGet d k).isSome ↔ k ∈ d.map Prod.fst := by
  induction d with
  | nil => simp [dictGet]
  | cons p rest ih =>
    by_cases h : p.1 = k
    · simp [dictGet_cons, h]
    · simp [dictGet_cons, h, ih, Ne.symm h]

theorem dictGet_removeKeys {β : Type} (d : List (String × β)) (ks : List String)
    (k : String) :
    dictGet (removeKeys d ks) k = if k ∈ ks then none else dictGet d k := by
  induction d with
  | nil => simp [removeKeys, dictGet]
  | cons p rest ih =>
    simp only [removeKeys, List.filter_cons] at ih ⊢
    by_cases hc : p.1 ∈ ks
    · have hct : ks.contains p.1 = true := List.elem_iff.mpr hc
      rw [hct]
      simp only [Bool.not_true, Bool.false_eq_true, if_false]
      by_cases hk : k ∈ ks
      · rw [ih, if_pos hk, if_pos hk]
      · rw [ih, if_neg hk, if_neg hk, dictGet_cons,
          if_neg (fun hh : p.1 = k => hk (hh ▸ hc))]
    · have hcf : ks.contains p.1 = false := by
        rcases hb : ks.contains p.1 with _ | _
        · rfl
        · exact absurd (List.elem_iff.mp hb) hc
      rw [hcf]
      simp only [Bool.not_false, if_true]
      rw [dictGet_cons]
      by_cases hp : p.1 = k
      · subst hp
        rw [if_pos rfl, if_neg hc, dictGet_cons, if_pos rfl]
      · rw [if_neg hp, ih]
        by_cases hk : k ∈ ks
        · rw [if_pos hk, if_pos hk]
        · rw [if_neg hk, if_neg hk, dictGet_cons, if_neg hp]

theorem removeKeys_nil {β : Type} (d : List (String × β)) : removeKeys d [] = d :=
  List.filter_eq_self.mpr (fun a _ => rfl)

theorem length_removeKeys_le {β : Type} (d : List (String × β)) (ks : List String) :
    (removeKeys d ks).length ≤ d.length :=
  List.length_filter_le _ _

theorem length_removeKeys_lt {β : Type} (d : List (String × β)) (ks : List String)
    (k : String) (hks : k ∈ ks) (hd : k ∈ d.map Prod.fst) :
    (removeKeys d ks).length < d.length := by
  obtain ⟨p, hp, hpk⟩ := List.mem_map.mp hd
  refine List.length_filter_lt_length_iff_exists.mpr ⟨p, hp, ?_⟩
  have hck : ks.contains p.1 = true := by
    rw [hpk]
    exact List.elem_iff.mpr hks
  rw [hck]
  decide

theorem length_dictPop_lt {β : Type} (d : List (String × β)) (k : String)
    (h : (dictGet d k).isSome) : (dictPop d k).length < d.length := by
  obtain ⟨p, hp, hpk⟩ := List.mem_map.mp ((isSome_dictGet_iff_mem d k).mp h)
  refine List.length_filter_lt_length_iff_exists.mpr ⟨p, hp, ?_⟩
  simp [hpk]

theorem dictGet_append {β : Type} (d₁ d₂ : List (String × β)) (k : String) :
    dictGet (d₁ ++ d₂) k =
      match dictGet d₁ k with
      | some v => some v
      | none => dictGet d₂ k := by
  induction d₁ with
  | nil => rfl
  | cons p rest ih =>
    rw [List.cons_append, dictGet_cons, dictGet_cons]
    by_cases hp : p.1 = k
    · rw [if_pos hp, if_pos hp]
    · rw [if_neg hp, if_neg hp, ih]

theorem dictGet_mapUpdate_self {β : Type} (d : List (String × β)) (k : String) (v : β) :
    dictGet (d.map (fun p => if p.1 = k then (k, v) else p)) k =
      if (dictGet d k).isSome then some v else none := by
  induction d with
  | nil => simp [dictGet]
  | cons p rest ih =>
    by_cases hp : p.1 = k
    · simp only [List.map_cons, if_pos hp, dictGet_cons, if_pos hp]
      simp
    · simp only [List.map_cons, if_neg hp, dictGet_cons, if_neg hp]
      exact ih

theorem dictGet_mapUpdate_ne {β : Type} (d : List (String × β)) (k k' : String) (v : β)
    (h : k' ≠ k) :
    dictGet (d.map (fun p => if p.1 = k then (k, v) else p)) k' = dictGet d k' := by
  induction d with
  | nil => rfl
  | cons p rest ih =>
    by_cases hp : p.1 = k
    · simp only [List.map_cons, if_pos hp, dictGet_cons]
      rw [if_neg (fun hh => h hh.symm), if_neg (fun hh => h (hh.symm.trans hp))]
      exact ih
    · simp only [List.map_cons, if_neg hp, dictGet_cons]
      by_cases hp' : p.1 = k'
      · rw [if_pos hp', if_pos hp']
      · rw [if_neg hp', if_neg hp']
        exact ih

theorem dictGet_dictSet_self {β : Type} (d : List (String × β)) (k : String) (v : β) :
    dictGet (dictSet d k v) k = some v := by
  rw [dictSet]
  split_ifs with h
  · rw [dictGet_mapUpdate_self, if_pos h]
  · rw [dictGet_append]
    rw [Option.not_isSome_iff_eq_none] at h
    rw [h]
    simp [dictGet_cons]

theorem dictGet_dictSet_ne {β : Type} (d : List (String × β)) (k k' : String) (v : β)
    (h : k' ≠ k) : dictGet (dictSet d k v) k' = dictGet d k' := by
  rw [dictSet]
  split_ifs with hs
  · exact dictGet_mapUpdate_ne d k k' v h
  · rw [dictGet_append]
    cases hd : dictGet d k' with
    | some w => rfl
    | none => simp [dictGet_cons, Ne.symm h, dictGet]

theorem length_dictSet_present {β : Type} (d : List (String × β)) (k : String) (v : β)
    (h : (dictGet d k).isSome) : (dictSet d k v).length = d.length := by
  rw [dictSet, if_pos h, List.length_map]

theorem length_dictSet_absent {β : Type} (d : List (String × β)) (k : String) (v : β)
    (h : ¬ (dictGet d k).isSome) : (dictSet d k v).length = d.length + 1 := by
  rw [dictSet, if_neg h, List.length_append, List.length_cons, List.length_nil]

theorem isSome_dictGet_moveToEnd {β : Type} (d : List (String × β)) (k k' : String) :
    (dictGet (moveToEnd d k) k').isSome ↔ (dictGet d k').isSome := by
  rw [moveToEnd]
  cases hd : dictGet d k with
  | none => exact Iff.rfl
  | some v =>
    rw [dictGet_append]
    rcases eq_or_ne k' k with hk | hk
    · subst hk
      rw [dictGet_dictPop_self]
      simp [dictGet_cons, hd]
    · rw [dictGet_dictPop_ne d k k' hk]
      cases hd' : dictGet d k' with
      | some w => simp
      | none => simp [dictGet_cons, Ne.symm hk, dictGet]

theorem length_moveToEnd_le {β : Type} (d : List (String × β)) (k : String) :
    (moveToEnd d k).length ≤ d.length := by
  rw [moveToEnd]
  cases hd : dictGet d k with
  | none => exact le_refl _
  | some v =>
    rw [List.length_append, List.length_cons, List.length_nil]
    have := length_dictPop_lt d k (by simp [hd])
    omega

/-! ### Stable-sort lemmas: the head of `sortByTime` is the first entry
with minimal access time -/

theorem length_insertByTime (x : String × Nat) (l : List (String × Nat)) :
    (insertByTime x l).length = l.length + 1 := by
  induction l with
  | nil => rfl
  | cons y ys ih =>
    rw [insertByTime]
    split_ifs with h
    · rw [List.length_cons, ih, List.length_cons]
    · rfl

theorem length_sortByTime (l : List (String × Nat)) :
    (sortByTime l).length = l.length := by
  induction l with
  | nil => rfl
  | cons p ps ih =>
    rw [sortByTime, length_insertByTime, ih, List.length_cons]

theorem mem_insertByTime (x y : String × Nat) (l : List (String × Nat)) :
    y ∈ insertByTime x l ↔ y = x ∨ y ∈ l := by
  induction l with
  | nil => simp [insertByTime]
  | cons z zs ih =>
    rw [insertByTime]
    split_ifs with h
    · rw [List.mem_cons, ih, List.mem_cons]
      tauto
    · simp [List.mem_cons]

theorem mem_sortByTime (y : String × Nat) (l : List (String × Nat)) :
    y ∈ sortByTime l ↔ y ∈ l := by
  induction l with
  | nil => exact Iff.rfl
  | cons p ps ih =>
    rw [sortByTime, mem_insertByTime, ih, List.mem_cons]

theorem firstMin_eq_none (l : List (String × Nat)) :
    firstMin l = none ↔ l = [] := by
  cases l with
  | nil => simp [firstMin]
  | cons p ps =>
    constructor
    · intro h
      rw [firstMin] at h
      cases hx : firstMin ps with
      | none =>
        simp only [hx] at h
        exact Option.noConfusion h
      | some q =>
        simp only [hx] at h
        split_ifs at h
    · intro h
      cases h

theorem head?_sortByTime (l : List (String × Nat)) :
    (sortByTime l).head? = firstMin l := by
  induction l with
  | nil => rfl
  | cons p ps ih =>
    rw [sortByTime]
    cases hs : sortByTime ps with
    | nil =>
      have hps : ps = [] := by
        have hl := length_sortByTime ps
        rw [hs] at hl
        exact List.length_eq_zero.mp hl.symm
      subst hps
      simp [insertByTime, firstMin]
    | cons q qs =>
      have hq : firstMin ps = some q := by
        rw [← ih, hs]
        rfl
      rw [insertByTime]
      split_ifs with h
      · simp [firstMin, hq, h]
      · simp [firstMin, hq, h]

theorem firstMin_decomp (l : List (String × Nat)) (p : String × Nat)
    (h : firstMin l = some p) :
    ∃ pre post, l = pre ++ p :: post ∧ (∀ q ∈ pre, p.2 < q.2) ∧
      ∀ q ∈ l, p.2 ≤ q.2 := by
  induction l generalizing p with
  | nil => cases h
  | cons x xs ih =>
    rw [firstMin] at h
    cases hx : firstMin xs with
    | none =>
      have hxs : xs = [] := (firstMin_eq_none xs).mp hx
      subst hxs
      simp only [hx] at h
      injection h with h
      subst h
      exact ⟨[], [], rfl, by simp, by simp⟩
    | some q =>
      simp only [hx] at h
      obtain ⟨pre, post, hdec, hpre, hall⟩ := ih q hx
      by_cases hlt : q.2 < x.2
      · rw [if_pos hlt] at h
        injection h with h
        subst h
        refine ⟨x :: pre, post, by rw [hdec, List.cons_append], ?_, ?_⟩
        · intro r hr
          rcases List.mem_cons.mp hr with hr | hr
          · subst hr; exact hlt
          · exact hpre r hr
        · intro r hr
          rcases List.mem_cons.mp hr with hr | hr
          · subst hr; exact le_of_lt hlt
          · exact hall r hr
      · rw [if_neg hlt] at h
        injection h with h
        subst h
        refine ⟨[], xs, rfl, by simp, ?_⟩
        intro r hr
        rcases List.mem_cons.mp hr with hr | hr
        · subst hr; exact le_refl _
        · exact le_trans (not_lt.mp hlt) (hall r hr)

/-! ### Preservation of the cache/access_times key correspondence -/

theorem keysCorr_initCache (max_size ttl_hours : Int) :
    KeysCorr (initCache max_size ttl_hours) := by
  intro k
  exact Iff.rfl

theorem keysCorr_evictExpired (st : CacheState) (now : Nat) (h : KeysCorr st) :
    KeysCorr (evictExpired st now).1 := by
  intro k
  show (dictGet (removeKeys st.cache _) k).isSome ↔
    (dictGet (removeKeys st.access_times _) k).isSome
  rw [dictGet_removeKeys, dictGet_removeKeys]
  split_ifs with hk
  · exact Iff.rfl
  · exact h k

theorem keysCorr_evictLru (st : CacheState) (count : Nat) (h : KeysCorr st) :
    KeysCorr (evictLru st count).1 := by
  intro k
  show (dictGet (removeKeys st.cache _) k).isSome ↔
    (dictGet (removeKeys st.access_times _) k).isSome
  rw [dictGet_removeKeys, dictGet_removeKeys]
  split_ifs with hk
  · exact Iff.rfl
  · exact h k

theorem keysCorr_cacheGet (st : CacheState) (question : String)
    (category section_ : Option String) (now : Nat) (h : KeysCorr st) :
    KeysCorr (cacheGet st question category section_ now).1 := by
  simp only [cacheGet]
  cases hd : dictGet st.cache (generateCacheKey question category section_) with
  | none => exact h
  | some entry =>
    by_cases hb :
        isExpired { st with total_requests := st.total_requests + 1 } entry now
    · simp only [hb, if_true]
      intro k
      rcases eq_or_ne k (generateCacheKey question category section_) with hk | hk
      · rw [hk]
        show (dictGet (dictPop st.cache (generateCacheKey question category section_))
            (generateCacheKey question category section_)).isSome ↔
          (dictGet (dictPop st.access_times (generateCacheKey question category section_))
            (generateCacheKey question category section_)).isSome
        rw [dictGet_dictPop_self, dictGet_dictPop_self]
        exact Iff.rfl
      · show (dictGet (dictPop st.cache _) k).isSome ↔
          (dictGet (dictPop st.access_times _) k).isSome
        rw [dictGet_dictPop_ne _ _ _ hk, dictGet_dictPop_ne _ _ _ hk]
        exact h k
    · simp only [Bool.not_eq_true] at hb
      simp only [hb, Bool.false_eq_true, if_false]
      intro k
      show (dictGet (moveToEnd st.cache _) k).isSome ↔
        (dictGet (dictSet st.access_times _ now) k).isSome
      rw [isSome_dictGet_moveToEnd]
      rcases eq_or_ne k (generateCacheKey question category section_) with hk | hk
      · subst hk
        rw [dictGet_dictSet_self]
        simp [hd]
      · rw [dictGet_dictSet_ne _ _ _ _ hk]
        exact h k

theorem keysCorr_cacheSet (st : CacheState) (question answer : String)
    (is_fallback : Bool) (category section_ : Option String) (now : Nat)
    (h : KeysCorr st) :
    KeysCorr (cacheSet st question answer is_fallback category section_ now) := by
  have h1 := keysCorr_evictExpired st now h
  simp only [cacheSet]
  split_ifs with hcond
  · have h2 := keysCorr_evictLru (evictExpired st now).1 1 h1
    intro k
    show (dictGet (dictSet _ _ _) k).isSome ↔ (dictGet (dictSet _ _ _) k).isSome
    rcases eq_or_ne k (generateCacheKey question category section_) with hk | hk
    · subst hk
      rw [dictGet_dictSet_self, dictGet_dictSet_self]
      simp
    · rw [dictGet_dictSet_ne _ _ _ _ hk, dictGet_dictSet_ne _ _ _ _ hk]
      exact h2 k
  · intro k
    show (dictGet (dictSet _ _ _) k).isSome ↔ (dictGet (dictSet _ _ _) k).isSome
    rcases eq_or_ne k (generateCacheKey question category section_) with hk | hk
    · subst hk
      rw [dictGet_dictSet_self, dictGet_dictSet_self]
      simp
    · rw [dictGet_dictSet_ne _ _ _ _ hk, dictGet_dictSet_ne _ _ _ _ hk]
      exact h1 k

theorem keysCorr_cacheClear (st : CacheState) : KeysCorr (cacheClear st) := by
  intro k
  exact Iff.rfl

theorem keysCorr_cacheCleanup (st : CacheState) (now : Nat) (h : KeysCorr st) :
    KeysCorr (cacheCleanup st now).1 := by
  have h1 := keysCorr_evictExpired st now h
  simp only [cacheCleanup]
  split_ifs with hcond
  · exact keysCorr_evictLru _ _ h1
  · exact h1

/-- When the cache is non-empty and the two maps agree on keys, one round
of LRU eviction removes exactly the first minimal-access-time key from
both maps. -/
theorem evictLru_one (st : CacheState) (hcorr : KeysCorr st)
    (hne : st.cache ≠ []) :
    ∃ q0 : String × Nat, firstMin st.access_times = some q0 ∧
      (evictLru st 1).1.cache = removeKeys st.cache [q0.1] ∧
      (evictLru st 1).1.access_times = removeKeys st.access_times [q0.1] ∧
      (evictLru st 1).1.cache.length < st.cache.length := by
  have hatne : st.access_times ≠ [] := by
    intro h0
    obtain ⟨p, ps, hc⟩ := List.exists_cons_of_ne_nil hne
    have hmem : p.1 ∈ st.cache.map Prod.fst := by
      rw [hc]
      exact List.mem_map.mpr ⟨p, List.mem_cons_self p ps, rfl⟩
    have hsome := (hcorr p.1).mp ((isSome_dictGet_iff_mem _ _).mpr hmem)
    rw [h0] at hsome
    simp [dictGet] at hsome
  obtain ⟨q0, rest, hsort⟩ : ∃ q0 rest, sortByTime st.access_times = q0 :: rest := by
    cases hss : sortByTime st.access_times with
    | nil =>
      have hl := length_sortByTime st.access_times
      rw [hss] at hl
      exact absurd (List.length_eq_zero.mp hl.symm) hatne
    | cons a b => exact ⟨a, b, rfl⟩
  have hfm : firstMin st.access_times = some q0 := by
    rw [← head?_sortByTime, hsort]
    rfl
  have hq0mem : q0 ∈ st.access_times := by
    have : q0 ∈ sortByTime st.access_times := by
      rw [hsort]
      exact List.mem_cons_self q0 rest
    exact (mem_sortByTime q0 _).mp this
  have hq0at : (dictGet st.access_times q0.1).isSome :=
    (isSome_dictGet_iff_mem _ _).mpr (List.mem_map.mpr ⟨q0, hq0mem, rfl⟩)
  have hq0cache : (dictGet st.cache q0.1).isSome := (hcorr q0.1).mpr hq0at
  have hvict : (((sortByTime st.access_times).take 1).map Prod.fst) = [q0.1] := by
    rw [hsort]
    rfl
  have hrem : ([q0.1].filter (fun k => (dictGet st.cache k).isSome)) = [q0.1] := by
    rw [List.filter_cons, if_pos (by simpa using hq0cache)]
    rfl
  refine ⟨q0, hfm, ?_, ?_, ?_⟩
  · show removeKeys st.cache
      ((((sortByTime st.access_times).take 1).map Prod.fst).filter
        (fun k => (dictGet st.cache k).isSome)) = _
    rw [hvict, hrem]
  · show removeKeys st.access_times
      ((((sortByTime st.access_times).take 1).map Prod.fst).filter
        (fun k => (dictGet st.cache k).isSome)) = _
    rw [hvict, hrem]
  · show (removeKeys st.cache
      ((((sortByTime st.access_times).take 1).map Prod.fst).filter
        (fun k => (dictGet st.cache k).isSome))).length < _
    rw [hvict, hrem]
    exact length_removeKeys_lt st.cache [q0.1] q0.1 (List.mem_cons_self _ _)
      ((isSome_dictGet_iff_mem _ _).mp hq0cache)

/-! ### Size bound: the cache never exceeds `max_size` entries -/

theorem length_dictSet_le {β : Type} (d : List (String × β)) (k : String) (v : β) :
    (dictSet d k v).length ≤ d.length + 1 := by
  by_cases h : (dictGet d k).isSome
  · rw [length_dictSet_present d k v h]
    omega
  · rw [length_dictSet_absent d k v h]

theorem evictExpired_cache_length_le (st : CacheState) (now : Nat) :
    (evictExpired st now).1.cache.length ≤ st.cache.length :=
  List.length_filter_le _ _

theorem evictLru_cache_length_le (st : CacheState) (count : Nat) :
    (evictLru st count).1.cache.length ≤ st.cache.length :=
  List.length_filter_le _ _

theorem cacheGet_cache_length_le (st : CacheState) (question : String)
    (category section_ : Option String) (now : Nat) :
    (cacheGet st question category section_ now).1.cache.length ≤ st.cache.length := by
  simp only [cacheGet]
  cases hd : dictGet st.cache (generateCacheKey question category section_) with
  | none => exact le_refl _
  | some entry =>
    by_cases hb :
        isExpired { st with total_requests := st.total_requests + 1 } entry now
    · simp only [hb, if_true]
      exact List.length_filter_le _ _
    · simp only [Bool.not_eq_true] at hb
      simp only [hb, Bool.false_eq_true, if_false]
      exact length_moveToEnd_le st.cache _

theorem cacheCleanup_cache_length_le (st : CacheState) (now : Nat) :
    (cacheCleanup st now).1.cache.length ≤ st.cache.length := by
  simp only [cacheCleanup]
  split_ifs with h
  · exact le_trans (evictLru_cache_length_le _ _) (evictExpired_cache_length_le st now)
  · exact evictExpired_cache_length_le st now

theorem cacheSet_size_ok (st : CacheState) (question answer : String)
    (is_fallback : Bool) (category section_ : Option String) (now : Nat)
    (hcorr : KeysCorr st) (hms : 1 ≤ st.max_size)
    (hsz : (st.cache.length : Int) ≤ st.max_size) :
    ((cacheSet st question answer is_fallback category section_ now).cache.length : Int) ≤
      st.max_size := by
  have h1corr := keysCorr_evictExpired st now hcorr
  have h1len : (evictExpired st now).1.cache.length ≤ st.cache.length :=
    evictExpired_cache_length_le st now
  have h1ms : (evictExpired st now).1.max_size = st.max_size := rfl
  simp only [cacheSet]
  split_ifs with hcond
  · have hne : (evictExpired st now).1.cache ≠ [] := by
      intro h0
      have h1 := hcond.1
      rw [h0, h1ms] at h1
      simp at h1
      omega
    obtain ⟨q0, hfm, hc2, ha2, hlt⟩ := evictLru_one (evictExpired st now).1 h1corr hne
    have h2 : ∀ v : CacheEntry,
        ((dictSet (evictLru (evictExpired st now).1 1).1.cache
          (generateCacheKey question category section_) v).length : Int) ≤
          st.max_size := by
      intro v
      have ha := length_dictSet_le (evictLru (evictExpired st now).1 1).1.cache
        (generateCacheKey question category section_) v
      have hcast : (st.cache.length : Int) ≤ st.max_size := hsz
      omega
    exact h2 _
  · by_cases hp : (dictGet (evictExpired st now).1.cache
        (generateCacheKey question category section_)).isSome
    · have h2 : ∀ v : CacheEntry,
          ((dictSet (evictExpired st now).1.cache
            (generateCacheKey question category section_) v).length : Int) ≤
            st.max_size := by
        intro v
        rw [length_dictSet_present _ _ _ hp]
        have hcast : (st.cache.length : Int) ≤ st.max_size := hsz
        omega
      exact h2 _
    · have hnotle : ¬ ((evictExpired st now).1.max_size ≤
          ((evictExpired st now).1.cache.length : Int)) :=
        fun hle => hcond ⟨hle, Option.not_isSome_iff_eq_none.mp hp⟩
      have hlt1 : ((evictExpired st now).1.cache.length : Int) < st.max_size := by
        rw [h1ms] at hnotle
        omega
      have h2 : ∀ v : CacheEntry,
          ((dictSet (evictExpired st now).1.cache
            (generateCacheKey question category section_) v).length : Int) ≤
            st.max_size := by
        intro v
        rw [length_dictSet_absent _ _ _ hp]
        push_cast
        omega
      exact h2 _

theorem applyOp_max_size (st : CacheState) (op : CacheOp) :
    (applyOp st op).max_size = st.max_size := by
  cases op with
  | opGet q c s now =>
    simp only [applyOp, cacheGet]
    cases hd : dictGet st.cache (generateCacheKey q c s) with
    | none => rfl
    | some entry =>
      by_cases hb :
          isExpired { st with total_requests := st.total_requests + 1 } entry now
      · simp only [hb, if_true]
      · simp only [Bool.not_eq_true] at hb
        simp only [hb, Bool.false_eq_true, if_false]
  | opSet q a fb c s now =>
    simp only [applyOp, cacheSet]
    split_ifs <;> rfl
  | opClear => rfl
  | opCleanup now =>
    simp only [applyOp, cacheCleanup]
    split_ifs <;> rfl

theorem applyOp_keysCorr (st : CacheState) (op : CacheOp) (h : KeysCorr st) :
    KeysCorr (applyOp st op) := by
  cases op with
  | opGet q c s now => exact keysCorr_cacheGet st q c s now h
  | opSet q a fb c s now => exact keysCorr_cacheSet st q a fb c s now h
  | opClear => exact keysCorr_cacheClear st
  | opCleanup now => exact keysCorr_cacheCleanup st now h

theorem applyOp_size_ok (st : CacheState) (op : CacheOp) (hcorr : KeysCorr st)
    (hms : 1 ≤ st.max_size) (hsz : (st.cache.length : Int) ≤ st.max_size) :
    ((applyOp st op).cache.length : Int) ≤ st.max_size := by
  cases op with
  | opGet q c s now =>
    have := cacheGet_cache_length_le st q c s now
    show ((cacheGet st q c s now).1.cache.length : Int) ≤ st.max_size
    omega
  | opSet q a fb c s now => exact cacheSet_size_ok st q a fb c s now hcorr hms hsz
  | opClear =>
    show ((0 : Nat) : Int) ≤ st.max_size
    omega
  | opCleanup now =>
    have := cacheCleanup_cache_length_le st now
    show ((cacheCleanup st now).1.cache.length : Int) ≤ st.max_size
    omega

/-- The size bound and key correspondence are preserved along any
operation sequence. -/
theorem runOps_lru_inv (ops : List CacheOp) (st : CacheState)
    (hcorr : KeysCorr st) (hms : 1 ≤ st.max_size)
    (hsz : (st.cache.length : Int) ≤ st.max_size) :
    KeysCorr (runOps st ops) ∧ (runOps st ops).max_size = st.max_size ∧
      ((runOps st ops).cache.length : Int) ≤ st.max_size := by
  induction ops generalizing st with
  | nil => exact ⟨hcorr, rfl, hsz⟩
  | cons op rest ih =>
    have hcorr' := applyOp_keysCorr st op hcorr
    have hmseq := applyOp_max_size st op
    have hms' : 1 ≤ (applyOp st op).max_size := by rw [hmseq]; exact hms
    have hsz' : ((applyOp st op).cache.length : Int) ≤ (applyOp st op).max_size := by
      rw [hmseq]
      exact applyOp_size_ok st op hcorr hms hsz
    obtain ⟨h1, h2, h3⟩ := ih (applyOp st op) hcorr' hms' hsz'
    exact ⟨h1, by rw [show runOps st (op :: rest) = runOps (applyOp st op) rest from rfl,
      h2, hmseq],
      by rw [show runOps st (op :: rest) = runOps (applyOp st op) rest from rfl]
         rw [hmseq] at h3
         exact h3⟩

/-! ### Exact characterization of the LRU eviction performed by `set` -/

theorem map_fst_removeKeys {β : Type} (d : List (String × β)) (ks : List String) :
    (removeKeys d ks).map Prod.fst =
      (d.map Prod.fst).filter (fun x => !(ks.contains x)) := by
  induction d with
  | nil => rfl
  | cons p rest ih =>
    simp only [removeKeys] at ih ⊢
    rw [List.filter_cons, List.map_cons, List.filter_cons]
    cases hb : ks.contains p.1 with
    | false => simp only [hb, Bool.not_false, if_true, List.map_cons, ih]
    | true => simp only [hb, Bool.not_true, Bool.false_eq_true, if_false, ih]

theorem filter_not_contains_singleton (l : List String) (k0 : String) :
    l.filter (fun x => !([k0].contains x)) = l.filter (fun x => x != k0) := by
  apply List.filter_congr
  intro a _
  by_cases hae : a = k0
  · subst hae
    simp
  · simp [hae]

theorem map_fst_dictSet_absent {β : Type} (d : List (String × β)) (k : String) (v : β)
    (h : dictGet d k = none) :
    (dictSet d k v).map Prod.fst = d.map Prod.fst ++ [k] := by
  rw [dictSet, if_neg (by simp [h]), List.map_append]
  rfl

theorem length_filter_not_singleton (l : List String) (k0 : String)
    (hnd : l.Nodup) (hk : k0 ∈ l) :
    (l.filter (fun x => !([k0].contains x))).length + 1 = l.length := by
  induction l with
  | nil => cases hk
  | cons x xs ih =>
    rw [List.filter_cons]
    rcases List.mem_cons.mp hk with hx | hx
    · subst hx
      rw [if_neg (by simp)]
      have hnotin : k0 ∉ xs := (List.nodup_cons.mp hnd).1
      have hself : xs.filter (fun x => !([k0].contains x)) = xs := by
        apply List.filter_eq_self.mpr
        intro b hb
        have hbne : b ≠ k0 := fun hbe => hnotin (hbe ▸ hb)
        simp [List.contains_cons, hbne]
      rw [hself, List.length_cons]
    · have hxne : x ≠ k0 := by
        intro hxe
        exact absurd (hxe ▸ hx) (List.nodup_cons.mp hnd).1
      rw [if_pos (by simp [List.contains_cons, hxne])]
      rw [List.length_cons, List.length_cons]
      have := ih (List.nodup_cons.mp hnd).2 hx
      omega

/-- When `set` is called on a purged (no expired entries), at-capacity
cache with a new key, exactly one entry is evicted: the one whose key
comes first in `access_times` among those with the minimal access time
(oldest last-access timestamp, ties broken by insertion order), and the
new key is appended. -/
theorem cacheSet_at_capacity_evicts (st : CacheState) (question answer : String)
    (is_fallback : Bool) (category section_ : Option String) (now : Nat)
    (hnodupc : (st.cache.map Prod.fst).Nodup)
    (hsub1 : st.access_times.map Prod.fst ⊆ st.cache.map Prod.fst)
    (hsub2 : st.cache.map Prod.fst ⊆ st.access_times.map Prod.fst)
    (hfresh : ∀ p ∈ st.cache, isExpired st p.2 now = false)
    (hnew : dictGet st.cache (generateCacheKey question category section_) = none)
    (hcap : st.max_size ≤ (st.cache.length : Int))
    (hne : st.cache ≠ []) :
    ∃ (k0 : String) (t0 : Nat) (pre post : List (String × Nat)),
      st.access_times = pre ++ (k0, t0) :: post ∧
      (∀ p ∈ pre, t0 < p.2) ∧
      (∀ p ∈ st.access_times, t0 ≤ p.2) ∧
      (cacheSet st question answer is_fallback category section_ now).cache.map
          Prod.fst =
        (st.cache.map Prod.fst).filter (fun x => x != k0) ++
          [generateCacheKey question category section_] ∧
      (cacheSet st question answer is_fallback category section_ now).cache.length =
        st.cache.length := by
  -- the expiry purge is a no-op on a fresh cache
  have hkeysnil : st.cache.filter (fun p => isExpired st p.2 now) = [] :=
    List.filter_eq_nil_iff.mpr (fun p hp => by simp [hfresh p hp])
  have hc1 : (evictExpired st now).1.cache = st.cache := by
    show removeKeys st.cache
      ((st.cache.filter (fun p => isExpired st p.2 now)).map Prod.fst) = st.cache
    rw [hkeysnil]
    exact removeKeys_nil st.cache
  have ha1 : (evictExpired st now).1.access_times = st.access_times := by
    show removeKeys st.access_times
      ((st.cache.filter (fun p => isExpired st p.2 now)).map Prod.fst) = st.access_times
    rw [hkeysnil]
    exact removeKeys_nil st.access_times
  -- the key correspondence
  have hcorr : KeysCorr st := by
    intro k
    rw [isSome_dictGet_iff_mem, isSome_dictGet_iff_mem]
    exact ⟨fun hm => hsub2 hm, fun hm => hsub1 hm⟩
  have hcorr1 : KeysCorr (evictExpired st now).1 := keysCorr_evictExpired st now hcorr
  have hne1 : (evictExpired st now).1.cache ≠ [] := by
    rw [hc1]
    exact hne
  obtain ⟨q0, hfm0, hc2, ha2, hlt⟩ := evictLru_one (evictExpired st now).1 hcorr1 hne1
  rw [hc1] at hc2 hlt
  rw [ha1] at hfm0
  obtain ⟨pre, post, hdec, hpre, hall⟩ := firstMin_decomp st.access_times q0 hfm0
  -- the eviction branch is taken
  have hset : cacheSet st question answer is_fallback category section_ now =
      { (evictLru (evictExpired st now).1 1).1 with
        cache := dictSet (evictLru (evictExpired st now).1 1).1.cache
          (generateCacheKey question category section_)
          { answer := answer, is_fallback := is_fallback, created_at := now,
            question := question, category := category, section_ := section_,
            access_count :=
              match dictGet (evictLru (evictExpired st now).1 1).1.cache
                (generateCacheKey question category section_) with
              | some old => old.access_count + 1
              | none => 1 }
        access_times := dictSet (evictLru (evictExpired st now).1 1).1.access_times
          (generateCacheKey question category section_) now } := by
    simp only [cacheSet]
    split_ifs with hcond
    · rfl
    · exfalso
      apply hcond
      constructor
      · show (evictExpired st now).1.max_size ≤
          ((evictExpired st now).1.cache.length : Int)
        rw [hc1]
        exact hcap
      · rw [hc1]
        exact hnew
  -- the new key is still absent after the eviction
  have hq0cache : q0.1 ∈ st.cache.map Prod.fst := by
    apply hsub1
    apply List.mem_map.mpr
    refine ⟨q0, ?_, rfl⟩
    rw [hdec]
    exact List.mem_append.mpr (Or.inr (List.mem_cons_self _ _))
  have hKnew : generateCacheKey question category section_ ≠ q0.1 := by
    intro hKe
    have : (dictGet st.cache q0.1).isSome := (isSome_dictGet_iff_mem _ _).mpr hq0cache
    rw [← hKe, hnew] at this
    cases this
  have hK2 : dictGet (evictLru (evictExpired st now).1 1).1.cache
      (generateCacheKey question category section_) = none := by
    rw [hc2, dictGet_removeKeys]
    split_ifs with hmem
    · rfl
    · exact hnew
  refine ⟨q0.1, q0.2, pre, post, ?_, hpre, hall, ?_, ?_⟩
  · rw [hdec]
  · rw [hset]
    show (dictSet (evictLru (evictExpired st now).1 1).1.cache _ _).map Prod.fst = _
    rw [map_fst_dictSet_absent _ _ _ hK2, hc2, map_fst_removeKeys,
      filter_not_contains_singleton]
  · rw [hset]
    show (dictSet (evictLru (evictExpired st now).1 1).1.cache _ _).length = _
    rw [length_dictSet_absent _ _ _ (by simp [hK2]), hc2]
    have hlen1 : (removeKeys st.cache [q0.1]).length =
        ((removeKeys st.cache [q0.1]).map Prod.fst).length := (List.length_map _ _).symm
    have hlen2 : st.cache.length = (st.cache.map Prod.fst).length :=
      (List.length_map _ _).symm
    rw [hlen1, hlen2, map_fst_removeKeys]
    exact length_filter_not_singleton (st.cache.map Prod.fst) q0.1 hnodupc hq0cache

/-- **C3.** For every cache with `max_size ≥ 1`, after any sequence of
operations the cache holds at most `max_size` entries; when `set` is
called at capacity (on a purged cache) with a new key, exactly one entry
is evicted — the one with the oldest last-access timestamp, ties broken
by insertion order (the evicted key sits in `access_times` after only
strictly-younger entries and is no older than every entry); and in the
concrete `max_size = 2` scenario — insert `k1`, insert `k2`, `get k1`,
insert `k3` — it is `k2` that is evicted while `k1` stays retrievable. -/
theorem lru_capacity_and_eviction_order :
    (∀ (max_size ttl_hours : Int) (ops : List CacheOp), 1 ≤ max_size →
      ((runOps (initCache max_size ttl_hours) ops).cache.length : Int) ≤ max_size) ∧
    (∀ (st : CacheState) (question answer : String) (is_fallback : Bool)
        (category section_ : Option String) (now : Nat),
      (st.cache.map Prod.fst).Nodup →
      st.access_times.map Prod.fst ⊆ st.cache.map Prod.fst →
      st.cache.map Prod.fst ⊆ st.access_times.map Prod.fst →
      (∀ p ∈ st.cache, isExpired st p.2 now = false) →
      dictGet st.cache (generateCacheKey question category section_) = none →
      st.max_size ≤ (st.cache.length : Int) →
      st.cache ≠ [] →
      ∃ (k0 : String) (t0 : Nat) (pre post : List (String × Nat)),
        st.access_times = pre ++ (k0, t0) :: post ∧
        (∀ p ∈ pre, t0 < p.2) ∧
        (∀ p ∈ st.access_times, t0 ≤ p.2) ∧
        (cacheSet st question answer is_fallback category section_ now).cache.map
            Prod.fst =
          (st.cache.map Prod.fst).filter (fun x => x != k0) ++
            [generateCacheKey question category section_] ∧
        (cacheSet st question answer is_fallback category section_
            now).cache.length = st.cache.length) ∧
    (cacheGet lruScenarioState "k2" none none 4).2 = none ∧
    (cacheGet lruScenarioState "k1" none none 4).2 = some ("a1", false) ∧
    (cacheGet lruScenarioState "k3" none none 4).2 = some ("a3", false) ∧
    lruScenarioState.cache.length = 2 := by
  refine ⟨?_, ?_, by decide, by decide, by decide, by decide⟩
  · intro max_size ttl_hours ops hms
    have h := runOps_lru_inv ops (initCache max_size ttl_hours)
      (keysCorr_initCache max_size ttl_hours) hms (by simp [initCache]; omega)
    exact h.2.2
  · intro st question answer is_fallback category section_ now h1 h2 h3 h4 h5 h6 h7
    exact cacheSet_at_capacity_evicts st question answer is_fallback category
      section_ now h1 h2 h3 h4 h5 h6 h7

/-- Witness for C3 at a concrete run: the size bound instantiated on the
spec's four-operation scenario over a `max_size = 2` cache. -/
theorem lru_capacity_and_eviction_order_witness :
    ((runOps (initCache 2 1)
      [CacheOp.opSet "k1" "a1" false none none 0,
       CacheOp.opSet "k2" "a2" false none none 1,
       CacheOp.opGet "k1" none none 2,
       CacheOp.opSet "k3" "a3" false none none 3]).cache.length : Int) ≤ 2 :=
  lru_capacity_and_eviction_order.1 2 1
    [CacheOp.opSet "k1" "a1" false none none 0,
     CacheOp.opSet "k2" "a2" false none none 1,
     CacheOp.opGet "k1" none none 2,
     CacheOp.opSet "k3" "a3" false none none 3] (by decide)

end DocUpdateManager
